import Mathlib

/-!
Verification of the lazy remote directory tree engine of
`pod-file-explorer-menu.tsx` (the pod file explorer component).

The development shallowly embeds the component's pure core, translated from
the final definitions in the source file (the file contains an earlier,
superseded copy of the component in its first half; the second, final copy is
the one the claims' line references point at and the one embedded here):

* the listing parser `parseListOutput` (source lines 603-638),
* the tree node type `FileEntry` (source lines 487-496),
* the path-addressed tree updaters used by `toggleExpand` and `loadChildren`
  (source lines 722-781),
* the expand-button click handler of `FileTreeNode` (source lines 523-536),
* the quoted command construction of `listFilesAtPath` (source lines 678-700).

JavaScript strings are modelled as Lean `String` (operating on `String.data`,
the list of characters), optional object fields as `Option`, and `parseInt`
NaN results as `none`.
-/

namespace FileExplorer

/-- Whitespace for the purposes of the JavaScript regular expression `\s` as it
applies to the characters that can occur inside a single listing line (the
line separator `\n` is consumed by the line split beforehand). -/
def isWsChar (c : Char) : Bool :=
  c = ' ' || c = '\t' || c = '\r'

/-- Splits a character list at every occurrence of `sep`, keeping empty chunks;
models `String.prototype.split` with a single-character separator. -/
def splitChar (sep : Char) : List Char → List (List Char)
  | [] => [[]]
  | c :: cs =>
    let r := splitChar sep cs
    if c = sep then [] :: r
    else
      match r with
      | [] => [[c]]
      | g :: gs => (c :: g) :: gs

/-- Splits a character list at every whitespace character, keeping empty chunks. -/
def splitWsRuns : List Char → List (List Char)
  | [] => [[]]
  | c :: cs =>
    let r := splitWsRuns cs
    if isWsChar c then [] :: r
    else
      match r with
      | [] => [[c]]
      | g :: gs => (c :: g) :: gs

/-- Tokenization on runs of whitespace: models `line.split(/\s+/)` as applied by
the parser, whose input lines are trimmed first (on a trimmed line the regex
split produces exactly the non-empty chunks between whitespace runs). -/
def tokensL (cs : List Char) : List (List Char) :=
  (splitWsRuns cs).filter (fun t => !t.isEmpty)

/-- Whitespace tokens of a string, as Lean strings. -/
def wsTokens (s : String) : List String :=
  (tokensL s.data).map String.mk

/-- Models `String.prototype.trim` on listing lines. -/
def trimL (cs : List Char) : List Char :=
  ((cs.dropWhile isWsChar).reverse.dropWhile isWsChar).reverse

/-- String-level trim. -/
def jsTrim (s : String) : String :=
  String.mk (trimL s.data)

/-- Boolean test of a string beginning with the given characters;
models `String.prototype.startsWith` (second argument is the proposed start). -/
def startsWithL : List Char → List Char → Bool
  | _, [] => true
  | [], _ :: _ => false
  | c :: cs, p :: ps => c == p && startsWithL cs ps

/-- String-level `startsWith`. -/
def strStarts (s pre : String) : Bool :=
  startsWithL s.data pre.data

/-- Accumulates the value of a maximal run of decimal digits. -/
def digitsValAux (acc : Nat) : List Char → Nat
  | [] => acc
  | c :: cs => if c.isDigit then digitsValAux (acc * 10 + (c.toNat - 48)) cs else acc

/-- Value of the leading digit run; `none` when the list does not start with a
digit. -/
def digitsVal : List Char → Option Nat
  | [] => none
  | c :: cs => if c.isDigit then some (digitsValAux (c.toNat - 48) cs) else none

/-- Models `parseInt(s, 10)` on a whitespace-free token: an optional sign
followed by a longest digit run; `none` models the NaN result. -/
def jsParseInt (s : String) : Option Int :=
  match s.data with
  | '-' :: rest => (digitsVal rest).map (fun n => -(n : Int))
  | '+' :: rest => (digitsVal rest).map (fun n => (n : Int))
  | cs => (digitsVal cs).map (fun n => (n : Int))

/-- Joins strings with single spaces; models `Array.prototype.join(" ")`. -/
def joinSpaceL : List (List Char) → List Char
  | [] => []
  | [x] => x
  | x :: xs => x ++ ' ' :: joinSpaceL xs

/-- String-level space join. -/
def sjoinSpace (l : List String) : String :=
  String.mk (joinSpaceL (l.map String.data))

/-- Truthiness of an optional boolean field, as JavaScript evaluates
`entry.expanded` and similar in boolean position (`undefined` is falsy). -/
def jsTruthy : Option Bool → Bool
  | some b => b
  | none => false

/-- The `FileEntry` record of the source (lines 487-496).  Optional fields of
the TypeScript interface become `Option`; `children = none` models the
`undefined` (never loaded) state and `children = some []` the loaded-and-empty
state, which are distinct values, exactly as in the source. -/
inductive FileEntry : Type where
  | mk (name : String) (path : String) (isDirectory : Bool) (size : Option Int)
       (permissions : Option String) (expanded : Option Bool)
       (children : Option (List FileEntry)) (loading : Option Bool) : FileEntry

def FileEntry.name : FileEntry → String
  | .mk n _ _ _ _ _ _ _ => n

def FileEntry.path : FileEntry → String
  | .mk _ p _ _ _ _ _ _ => p

def FileEntry.isDirectory : FileEntry → Bool
  | .mk _ _ d _ _ _ _ _ => d

def FileEntry.size : FileEntry → Option Int
  | .mk _ _ _ sz _ _ _ _ => sz

def FileEntry.permissions : FileEntry → Option String
  | .mk _ _ _ _ pm _ _ _ => pm

def FileEntry.expanded : FileEntry → Option Bool
  | .mk _ _ _ _ _ ex _ _ => ex

def FileEntry.children : FileEntry → Option (List FileEntry)
  | .mk _ _ _ _ _ _ ch _ => ch

def FileEntry.loading : FileEntry → Option Bool
  | .mk _ _ _ _ _ _ _ ld => ld

/-- One line of the listing parser's per-line mapping (source lines 610-636):
lines with fewer than 9 whitespace tokens and lines whose recovered name is
`.` or `..` map to `none`; otherwise the entry is built with the permissions
token, the space-rejoined name tail, the parent-path rule, and children
initialised to the empty list for directories and left undefined for files. -/
def parseLine (basePath : String) (line : String) : Option FileEntry :=
  let parts := wsTokens line
  if parts.length < 9 then none
  else
    let permissions := parts.getD 0 ""
    let name := sjoinSpace (parts.drop 8)
    let isDirectory := strStarts permissions "d"
    let size := jsParseInt (parts.getD 4 "")
    let fullPath := if basePath = "/" then "/" ++ name else basePath ++ "/" ++ name
    if name = "." ∨ name = ".." then none
    else
      some (FileEntry.mk name fullPath isDirectory
        (if isDirectory then none else size)
        (some permissions) (some false)
        (if isDirectory then some [] else none) none)

/-- Lines of a raw output string. -/
def jsLines (s : String) : List String :=
  (splitChar '\n' s.data).map String.mk

/-- Non-discarded lines of the raw output: trimmed, non-empty, and not a
summary line starting with `total` (source lines 606-609). -/
def keptLines (output : String) : List String :=
  ((jsLines output).map jsTrim).filter (fun l => l.length > 0 && !strStarts l "total")

/-- The listing parser `parseListOutput` of the source (lines 603-638):
guards empty input, splits into lines, trims them, drops blank and `total`
lines, and maps the per-line rule, discarding `null` results. -/
def parseListOutput (output : String) (basePath : String) : List FileEntry :=
  if output = "" then []
  else (keptLines output).filterMap (parseLine basePath)

/-- The matched-node transform of `toggleExpand` (source line 726):
`\x7b ...file, expanded: !file.expanded \x7d`. -/
def toggleExpandFn : FileEntry → FileEntry
  | .mk n pa d sz pm ex ch ld => .mk n pa d sz pm (some (!jsTruthy ex)) ch ld

/-- The matched-node transform of the first updater in `loadChildren`
(source line 741): `\x7b ...file, loading: true \x7d`. -/
def setLoadingTrueFn : FileEntry → FileEntry
  | .mk n pa d sz pm ex ch _ => .mk n pa d sz pm ex ch (some true)

/-- The matched-node transform of `updateFilesOnError` (source line 771):
`\x7b ...file, loading: false \x7d`. -/
def setLoadingFalseFn : FileEntry → FileEntry
  | .mk n pa d sz pm ex ch _ => .mk n pa d sz pm ex ch (some false)

/-- The matched-node transform of `updateFilesWithChildren` (source line 757):
`\x7b ...file, children, loading: false \x7d`. -/
def applyChildrenFn (cs : List FileEntry) : FileEntry → FileEntry
  | .mk n pa d sz pm ex _ _ => .mk n pa d sz pm ex (some cs) (some false)

mutual

/-- The shared recursive update pattern of `toggleExpand` and the three
updaters inside `loadChildren` (source lines 723-733, 738-748, 754-764,
768-778): a node whose path equals the target receives the transform `g`
(its subtree is not descended further); any other node is rebuilt with its
children updated recursively when the children field is present, and is
returned unchanged otherwise. -/
def updateTree (g : FileEntry → FileEntry) (p : String) : FileEntry → FileEntry
  | .mk n pa d sz pm ex ch ld =>
    if pa = p then g (.mk n pa d sz pm ex ch ld)
    else
      match ch with
      | some cs => .mk n pa d sz pm ex (some (updateList g p cs)) ld
      | none => .mk n pa d sz pm ex none ld

/-- List part of the shared update pattern (`files.map(...)` in the source). -/
def updateList (g : FileEntry → FileEntry) (p : String) : List FileEntry → List FileEntry
  | [] => []
  | e :: es => updateTree g p e :: updateList g p es

end

/-- The pure tree part of `toggleExpand` (source lines 722-735). -/
def toggleExpandUpdate (s : List FileEntry) (p : String) : List FileEntry :=
  updateList toggleExpandFn p s

/-- The pure tree part of the begin-load updater of `loadChildren`
(source lines 738-749). -/
def beginLoadUpdate (s : List FileEntry) (p : String) : List FileEntry :=
  updateList setLoadingTrueFn p s

/-- The pure tree part of `updateFilesWithChildren` (source lines 754-765). -/
def applyChildrenUpdate (s : List FileEntry) (p : String) (cs : List FileEntry) : List FileEntry :=
  updateList (applyChildrenFn cs) p s

/-- The pure tree part of `updateFilesOnError` (source lines 768-779). -/
def failLoadUpdate (s : List FileEntry) (p : String) : List FileEntry :=
  updateList setLoadingFalseFn p s

mutual

/-- Whether the update pattern can reach a node with the given path: true when
this node's path matches, or when the children field is present and some
reachable child matches. -/
def containsTree (p : String) : FileEntry → Bool
  | .mk _ pa _ _ _ _ ch _ =>
    pa = p ||
      match ch with
      | some cs => containsList p cs
      | none => false

/-- List version of `containsTree`. -/
def containsList (p : String) : List FileEntry → Bool
  | [] => false
  | e :: es => containsTree p e || containsList p es

end

mutual

/-- Depth-first search for the first node with the given path, descending into
the children field when present — the node the rendered row for that path
displays. -/
def findTree (p : String) : FileEntry → Option FileEntry
  | .mk n pa d sz pm ex ch ld =>
    if pa = p then some (.mk n pa d sz pm ex ch ld)
    else
      match ch with
      | some cs => findList p cs
      | none => none

/-- List version of `findTree`. -/
def findList (p : String) : List FileEntry → Option FileEntry
  | [] => none
  | e :: es =>
    match findTree p e with
    | some r => some r
    | none => findList p es

end

mutual

/-- Induction principle for `FileEntry` together with lists of entries,
tailored to the nested `children : Option (List FileEntry)` field. -/
theorem FileEntry.indTree {P : FileEntry → Prop} {Q : List FileEntry → Prop}
    (hnil : Q []) (hcons : ∀ e es, P e → Q es → Q (e :: es))
    (hnone : ∀ n pa d sz pm ex ld, P (.mk n pa d sz pm ex none ld))
    (hsome : ∀ n pa d sz pm ex ld cs, Q cs → P (.mk n pa d sz pm ex (some cs) ld)) :
    ∀ f, P f
  | .mk n pa d sz pm ex none ld => hnone n pa d sz pm ex ld
  | .mk n pa d sz pm ex (some cs) ld =>
    hsome n pa d sz pm ex ld cs (FileEntry.indList hnil hcons hnone hsome cs)

/-- List part of the induction principle. -/
theorem FileEntry.indList {P : FileEntry → Prop} {Q : List FileEntry → Prop}
    (hnil : Q []) (hcons : ∀ e es, P e → Q es → Q (e :: es))
    (hnone : ∀ n pa d sz pm ex ld, P (.mk n pa d sz pm ex none ld))
    (hsome : ∀ n pa d sz pm ex ld cs, Q cs → P (.mk n pa d sz pm ex (some cs) ld)) :
    ∀ l, Q l
  | [] => hnil
  | e :: es =>
    hcons e es (FileEntry.indTree hnil hcons hnone hsome e)
      (FileEntry.indList hnil hcons hnone hsome es)

end

/-- The observable state of `FileExplorerDialog` relevant to loading
(source lines 598-600), extended with the list of remote listing invocations
issued so far: each call of `listFilesAtPath` performs exactly one
`execKubectl` call for its path (source lines 678-700), so an invocation is
recorded as the path it lists. -/
structure ExplorerState where
  rootFiles : List FileEntry
  dialogError : Option String
  invocations : List String

/-- The synchronous part of `loadChildren(path)` up to and including issuing
the remote listing command (source lines 737-752): the begin-load tree update
runs, and one `listFilesAtPath(path)` invocation is issued.  The source
performs no check of the `loading` flag before doing either. -/
def loadChildrenBeginStep (st : ExplorerState) (p : String) : ExplorerState :=
  { rootFiles := beginLoadUpdate st.rootFiles p
    dialogError := st.dialogError
    invocations := st.invocations ++ [p] }

/-- Completion of a successful `loadChildren(path)` (source lines 752-765):
the listing output is parsed against `path` and applied with
`updateFilesWithChildren`. -/
def loadChildrenSuccessStep (st : ExplorerState) (p : String) (output : String) :
    ExplorerState :=
  { rootFiles := applyChildrenUpdate st.rootFiles p (parseListOutput output p)
    dialogError := st.dialogError
    invocations := st.invocations }

/-- Completion of a failed `loadChildren(path)` (source lines 766-780):
`setError` stores the message in the dialog-level error state and
`updateFilesOnError` clears the target node's loading flag.  `FileEntry` has
no per-node error field, so the message is recorded nowhere in the tree. -/
def loadChildrenErrorStep (st : ExplorerState) (p : String) (msg : String) :
    ExplorerState :=
  { rootFiles := failLoadUpdate st.rootFiles p
    dialogError := some msg
    invocations := st.invocations }

/-- The pure tree part of a `toggleExpand(path)` call (source lines 722-735). -/
def toggleExpandStep (st : ExplorerState) (p : String) : ExplorerState :=
  { rootFiles := toggleExpandUpdate st.rootFiles p
    dialogError := st.dialogError
    invocations := st.invocations }

/-- The load requests emitted by one click of the expand button of
`FileTreeNode` (source lines 525-530): `onLoadChildren(entry.path)` is called
exactly when `!entry.expanded && !entry.children` holds.  An empty children
array is truthy in JavaScript, so the children test succeeds exactly when the
field is `undefined`. -/
def clickLoadRequests (e : FileEntry) : List String :=
  if !jsTruthy e.expanded && e.children.isNone then [e.path] else []

/-- One click of the expand button for the node currently rendered at `p`
(source lines 523-536 together with the callbacks of `FileExplorerDialog`):
when the guard `!entry.expanded && !entry.children` holds, `loadChildren`
begins (its begin-load update and its remote invocation), and in either case
`toggleExpand` then flips the node.  The rendered entry for `p` is the first
node with that path found by descending the snapshot. -/
def clickDirectoryButton (st : ExplorerState) (p : String) : ExplorerState :=
  match findList p st.rootFiles with
  | none => st
  | some e =>
    if e.isDirectory then
      if !jsTruthy e.expanded && e.children.isNone then
        toggleExpandStep (loadChildrenBeginStep st p) p
      else
        toggleExpandStep st p
    else st

/-- Quote-escaping applied to the remote path by `listFilesAtPath`
(source line 680): every `"` becomes `\"`. -/
def escapeQuotesL : List Char → List Char
  | [] => []
  | c :: cs => if c = '"' then '\\' :: '"' :: escapeQuotesL cs else c :: escapeQuotesL cs

/-- String-level quote escaping. -/
def escapeQuotes (s : String) : String :=
  String.mk (escapeQuotesL s.data)

/-- The shell command string built by `listFilesAtPath` (source line 681) and
passed as a single argv element to `sh -c`: the escaped path interpolated
inside double quotes. -/
def buildListCommand (p : String) : String :=
  "ls -la -- \"" ++ escapeQuotes p ++ "\""

/-- Reads the body of a double-quoted shell word up to a closing quote that
must end the command string, with the POSIX double-quote escape rule: a
backslash is removed before `"`, `\`, `$` and a backquote, and kept otherwise. -/
def readDqWord : List Char → Option (List Char)
  | [] => none
  | c :: rest =>
    if c = '"' then (if rest.isEmpty then some [] else none)
    else if c = '\\' then
      match rest with
      | [] => none
      | c2 :: rest2 =>
        if c2 = '"' || c2 = '\\' || c2 = '$' || c2 = Char.ofNat 96 then
          (readDqWord rest2).map (fun w => c2 :: w)
        else
          (readDqWord rest2).map (fun w => '\\' :: c2 :: w)
    else (readDqWord rest).map (fun w => c :: w)

/-- Recovers, from a constructed listing command string, the directory path the
remote shell would receive as the final argument of `ls`. -/
def parsedListPath (cmd : String) : Option String :=
  if strStarts cmd "ls -la -- \"" then
    (readDqWord (cmd.data.drop ("ls -la -- \"".data.length))).map String.mk
  else none

mutual

/-- Every node reachable through present children fields has a defined
(`some`) expanded field.  The parser initialises `expanded` to `false` for
every entry it produces and the updaters only ever write `some` values, so
every snapshot the program constructs satisfies this. -/
def wfExpTree : FileEntry → Bool
  | .mk _ _ _ _ _ ex ch _ =>
    ex.isSome &&
      match ch with
      | some cs => wfExpList cs
      | none => true

/-- List version of `wfExpTree`. -/
def wfExpList : List FileEntry → Bool
  | [] => true
  | e :: es => wfExpTree e && wfExpList es

end

/-- Unfolding lemma for `updateTree` on a constructor. -/
theorem updateTree_mk (g : FileEntry → FileEntry) (p n pa : String) (d : Bool)
    (sz : Option Int) (pm : Option String) (ex : Option Bool)
    (ch : Option (List FileEntry)) (ld : Option Bool) :
    updateTree g p (.mk n pa d sz pm ex ch ld) =
      if pa = p then g (.mk n pa d sz pm ex ch ld)
      else
        match ch with
        | some cs => .mk n pa d sz pm ex (some (updateList g p cs)) ld
        | none => .mk n pa d sz pm ex none ld := by
  rw [updateTree.eq_def]

/-- Unfolding lemma for `findTree` on a constructor. -/
theorem findTree_mk (p n pa : String) (d : Bool) (sz : Option Int)
    (pm : Option String) (ex : Option Bool) (ch : Option (List FileEntry))
    (ld : Option Bool) :
    findTree p (.mk n pa d sz pm ex ch ld) =
      if pa = p then some (.mk n pa d sz pm ex ch ld)
      else
        match ch with
        | some cs => findList p cs
        | none => none := by
  rw [findTree.eq_def]

/-- Unfolding lemma for `containsTree` on a constructor. -/
theorem containsTree_mk (p n pa : String) (d : Bool) (sz : Option Int)
    (pm : Option String) (ex : Option Bool) (ch : Option (List FileEntry))
    (ld : Option Bool) :
    containsTree p (.mk n pa d sz pm ex ch ld) =
      (decide (pa = p) ||
        match ch with
        | some cs => containsList p cs
        | none => false) := by
  rw [containsTree.eq_def]

/-- A subtree the update pattern cannot reach a matching path in is returned
unchanged by the update, and a snapshot with no matching node at all is
returned unchanged; this is the structural-sharing frame property of all four
updaters at once. -/
theorem update_noop (g : FileEntry → FileEntry) (p : String) :
    (∀ f, containsTree p f = false → updateTree g p f = f) ∧
    (∀ l, containsList p l = false → updateList g p l = l) := by
  have hnil : containsList p [] = false → updateList g p [] = [] := fun _ => rfl
  have hcons : ∀ e es, (containsTree p e = false → updateTree g p e = e) →
      (containsList p es = false → updateList g p es = es) →
      (containsList p (e :: es) = false → updateList g p (e :: es) = e :: es) := by
    intro e es he hes h
    simp only [containsList, Bool.or_eq_false_iff] at h
    simp [updateList, he h.1, hes h.2]
  have hnone : ∀ n pa d sz pm ex ld,
      containsTree p (.mk n pa d sz pm ex none ld) = false →
      updateTree g p (.mk n pa d sz pm ex none ld) = .mk n pa d sz pm ex none ld := by
    intro n pa d sz pm ex ld h
    simp only [containsTree, Bool.or_eq_false_iff, decide_eq_false_iff_not] at h
    simp [updateTree, h.1]
  have hsome : ∀ n pa d sz pm ex ld cs,
      (containsList p cs = false → updateList g p cs = cs) →
      containsTree p (.mk n pa d sz pm ex (some cs) ld) = false →
      updateTree g p (.mk n pa d sz pm ex (some cs) ld) = .mk n pa d sz pm ex (some cs) ld := by
    intro n pa d sz pm ex ld cs hcs h
    simp only [containsTree, Bool.or_eq_false_iff, decide_eq_false_iff_not] at h
    simp [updateTree, h.1, hcs h.2]
  exact ⟨FileEntry.indTree hnil hcons hnone hsome, FileEntry.indList hnil hcons hnone hsome⟩

/-- Updating with a path-preserving transform commutes with the depth-first
search for the target path: the search in the updated tree finds exactly the
transformed version of the node it found before. -/
theorem find_update (g : FileEntry → FileEntry) (p : String)
    (hg : ∀ f, (g f).path = f.path) :
    (∀ f, findTree p (updateTree g p f) = (findTree p f).map g) ∧
    (∀ l, findList p (updateList g p l) = (findList p l).map g) := by
  have hmatch : ∀ f, f.path = p → findTree p f = some f := by
    intro f
    rcases f with ⟨n2, pa2, d2, sz2, pm2, ex2, ch2, ld2⟩
    intro hp
    have hpa : pa2 = p := hp
    rw [findTree_mk, if_pos hpa]
  have hnil : findList p (updateList g p []) = (findList p []).map g := rfl
  have hcons : ∀ e es,
      findTree p (updateTree g p e) = (findTree p e).map g →
      findList p (updateList g p es) = (findList p es).map g →
      findList p (updateList g p (e :: es)) = (findList p (e :: es)).map g := by
    intro e es he hes
    simp only [updateList, findList, he, hes]
    cases findTree p e <;> simp
  have hnone : ∀ n pa d sz pm ex ld,
      findTree p (updateTree g p (.mk n pa d sz pm ex none ld)) =
        (findTree p (.mk n pa d sz pm ex none ld)).map g := by
    intro n pa d sz pm ex ld
    by_cases hp : pa = p
    · have h1 : updateTree g p (.mk n pa d sz pm ex none ld) =
          g (.mk n pa d sz pm ex none ld) := by simp [updateTree, hp]
      have h2 : findTree p (.mk n pa d sz pm ex none ld) =
          some (.mk n pa d sz pm ex none ld) := by simp [findTree, hp]
      rw [h1, hmatch _ (by rw [hg]; exact hp), h2]
      rfl
    · simp [updateTree, findTree, hp]
  have hsome : ∀ n pa d sz pm ex ld cs,
      findList p (updateList g p cs) = (findList p cs).map g →
      findTree p (updateTree g p (.mk n pa d sz pm ex (some cs) ld)) =
        (findTree p (.mk n pa d sz pm ex (some cs) ld)).map g := by
    intro n pa d sz pm ex ld cs hcs
    by_cases hp : pa = p
    · have h1 : updateTree g p (.mk n pa d sz pm ex (some cs) ld) =
          g (.mk n pa d sz pm ex (some cs) ld) := by simp [updateTree, hp]
      have h2 : findTree p (.mk n pa d sz pm ex (some cs) ld) =
          some (.mk n pa d sz pm ex (some cs) ld) := by simp [findTree, hp]
      rw [h1, hmatch _ (by rw [hg]; exact hp), h2]
      rfl
    · simp [updateTree, findTree, hp, hcs]
  exact ⟨FileEntry.indTree hnil hcons hnone hsome, FileEntry.indList hnil hcons hnone hsome⟩

/-- Unfolding lemma for `wfExpTree` on a constructor. -/
theorem wfExpTree_mk (n pa : String) (d : Bool) (sz : Option Int)
    (pm : Option String) (ex : Option Bool) (ch : Option (List FileEntry))
    (ld : Option Bool) :
    wfExpTree (.mk n pa d sz pm ex ch ld) =
      (ex.isSome &&
        match ch with
        | some cs => wfExpList cs
        | none => true) := by
  rw [wfExpTree.eq_def]

/-- The toggle transform applied at a path-matching node twice restores the
node when its expanded field is defined, and on snapshots whose expanded
fields are all defined the toggle update is an involution. -/
theorem toggle_involutive (p : String) :
    (∀ f, wfExpTree f = true →
      updateTree toggleExpandFn p (updateTree toggleExpandFn p f) = f) ∧
    (∀ l, wfExpList l = true →
      updateList toggleExpandFn p (updateList toggleExpandFn p l) = l) := by
  have hmatched : ∀ n pa d sz pm ex ch ld, pa = p → ex.isSome = true →
      updateTree toggleExpandFn p
        (updateTree toggleExpandFn p (.mk n pa d sz pm ex ch ld)) =
        .mk n pa d sz pm ex ch ld := by
    intro n pa d sz pm ex ch ld hp hex
    subst hp
    rcases ex with _ | b
    · simp at hex
    · simp [updateTree_mk, toggleExpandFn, jsTruthy]
  have hnil : wfExpList [] = true →
      updateList toggleExpandFn p (updateList toggleExpandFn p []) = [] := fun _ => rfl
  have hcons : ∀ e es,
      (wfExpTree e = true →
        updateTree toggleExpandFn p (updateTree toggleExpandFn p e) = e) →
      (wfExpList es = true →
        updateList toggleExpandFn p (updateList toggleExpandFn p es) = es) →
      (wfExpList (e :: es) = true →
        updateList toggleExpandFn p (updateList toggleExpandFn p (e :: es)) = e :: es) := by
    intro e es he hes h
    simp only [wfExpList, Bool.and_eq_true] at h
    simp [updateList, he h.1, hes h.2]
  have hnone : ∀ n pa d sz pm ex ld, wfExpTree (.mk n pa d sz pm ex none ld) = true →
      updateTree toggleExpandFn p
        (updateTree toggleExpandFn p (.mk n pa d sz pm ex none ld)) =
        .mk n pa d sz pm ex none ld := by
    intro n pa d sz pm ex ld h
    rw [wfExpTree_mk] at h
    simp only [Bool.and_eq_true] at h
    by_cases hp : pa = p
    · exact hmatched n pa d sz pm ex none ld hp h.1
    · simp [updateTree_mk, hp]
  have hsome : ∀ n pa d sz pm ex ld cs,
      (wfExpList cs = true →
        updateList toggleExpandFn p (updateList toggleExpandFn p cs) = cs) →
      wfExpTree (.mk n pa d sz pm ex (some cs) ld) = true →
      updateTree toggleExpandFn p
        (updateTree toggleExpandFn p (.mk n pa d sz pm ex (some cs) ld)) =
        .mk n pa d sz pm ex (some cs) ld := by
    intro n pa d sz pm ex ld cs hcs h
    rw [wfExpTree_mk] at h
    simp only [Bool.and_eq_true] at h
    by_cases hp : pa = p
    · exact hmatched n pa d sz pm ex (some cs) ld hp h.1
    · simp [updateTree_mk, hp, hcs h.2]
  exact ⟨FileEntry.indTree hnil hcons hnone hsome, FileEntry.indList hnil hcons hnone hsome⟩

/-- The toggle transform does not change a node's path. -/
theorem toggleExpandFn_path (f : FileEntry) : (toggleExpandFn f).path = f.path := by
  cases f; rfl

/-- The begin-load transform does not change a node's path. -/
theorem setLoadingTrueFn_path (f : FileEntry) : (setLoadingTrueFn f).path = f.path := by
  cases f; rfl

/-- A line with fewer than 9 whitespace tokens is discarded by the per-line
rule. -/
theorem parseLine_short (bp line : String)
    (h : (wsTokens line).length < 9) : parseLine bp line = none := by
  simp only [parseLine]
  rw [if_pos h]

/-- An entry produced by the per-line rule is never named `.` or `..`. -/
theorem parseLine_name_ok (bp line : String) (e : FileEntry)
    (h : parseLine bp line = some e) : e.name ≠ "." ∧ e.name ≠ ".." := by
  simp only [parseLine] at h
  split at h
  · exact absurd h (by simp)
  · split at h
    · exact absurd h (by simp)
    · rename_i hdot
      injection h with h2
      subst h2
      push_neg at hdot
      exact ⟨hdot.1, hdot.2⟩

/-- An entry produced by the per-line rule has children `some []` exactly when
it is a directory and `none` exactly when it is a file, and its expanded field
is initialised to `some false`. -/
theorem parseLine_fields_ok (bp line : String) (e : FileEntry)
    (h : parseLine bp line = some e) :
    (e.isDirectory = true → e.children = some []) ∧
    (e.isDirectory = false → e.children = none) ∧
    e.expanded = some false := by
  simp only [parseLine] at h
  split at h
  · exact absurd h (by simp)
  · split at h
    · exact absurd h (by simp)
    · injection h with h2
      subst h2
      refine ⟨?_, ?_, rfl⟩
      · intro hd
        simp only [FileEntry.isDirectory] at hd
        simp only [FileEntry.children]
        rw [if_pos hd]
      · intro hd
        simp only [FileEntry.isDirectory] at hd
        simp only [FileEntry.children]
        rw [if_neg (by simp only [hd]; simp)]

/-- The guard for empty input in `parseListOutput` is redundant: the parser is
always the line pipeline. -/
theorem parse_eq_pipeline (out bp : String) :
    parseListOutput out bp = (keptLines out).filterMap (parseLine bp) := by
  unfold parseListOutput
  split
  · rename_i hout
    subst hout
    rfl
  · rfl

/-- A character split never produces the empty list of chunks. -/
theorem splitChar_ne_nil (sep : Char) (xs : List Char) : splitChar sep xs ≠ [] := by
  induction xs with
  | nil => simp [splitChar]
  | cons c cs ih =>
    simp only [splitChar]
    by_cases hc : c = sep
    · simp [hc]
    · rcases hsp : splitChar sep cs with _ | ⟨g, gs⟩
      · exact absurd hsp ih
      · simp [hc, hsp]

/-- Splitting distributes over an occurrence of the separator. -/
theorem splitChar_append (sep : Char) (xs ys : List Char) :
    splitChar sep (xs ++ sep :: ys) = splitChar sep xs ++ splitChar sep ys := by
  induction xs with
  | nil => simp [splitChar]
  | cons c cs ih =>
    by_cases hc : c = sep
    · subst hc
      simp [splitChar, ih]
    · rcases hsp : splitChar sep cs with _ | ⟨g, gs⟩
      · exact absurd hsp (splitChar_ne_nil sep cs)
      · simp [splitChar, ih, hsp, hc]

/-- Splitting a chunk free of the separator returns it whole. -/
theorem splitChar_no_sep (sep : Char) (xs : List Char)
    (h : xs.contains sep = false) : splitChar sep xs = [xs] := by
  induction xs with
  | nil => rfl
  | cons c cs ih =>
    simp only [List.contains_cons, Bool.or_eq_false_iff, beq_eq_false_iff_ne] at h
    have hc : ¬c = sep := fun hcc => h.1 hcc.symm
    simp [splitChar, hc, ih h.2]

/-- Line splitting distributes over a newline between two raw chunks. -/
theorem jsLines_append (a b : String) :
    jsLines (a ++ "\n" ++ b) = jsLines a ++ jsLines b := by
  unfold jsLines
  have hdata : (a ++ "\n" ++ b).data = a.data ++ '\n' :: b.data := by
    rw [String.data_append, String.data_append]
    simp
  rw [hdata, splitChar_append, List.map_append]

/-- Kept-line computation distributes over a newline between two raw chunks. -/
theorem keptLines_append (a b : String) :
    keptLines (a ++ "\n" ++ b) = keptLines a ++ keptLines b := by
  unfold keptLines
  rw [jsLines_append, List.map_append, List.filter_append]

/-- Appending one newline-free line whose trimmed form has fewer than 9 tokens
does not change the parse result: the malformed line is silently discarded. -/
theorem parse_drop_malformed (out junk bp : String)
    (hnl : junk.data.contains '\n' = false)
    (htok : (wsTokens (jsTrim junk)).length < 9) :
    parseListOutput (out ++ "\n" ++ junk) bp = parseListOutput out bp := by
  rw [parse_eq_pipeline, parse_eq_pipeline, keptLines_append, List.filterMap_append]
  have hlines : jsLines junk = [junk] := by
    unfold jsLines
    rw [splitChar_no_sep _ _ hnl]
    rfl
  have hkept : keptLines junk = List.filter
      (fun l => l.length > 0 && !strStarts l "total") [jsTrim junk] := by
    unfold keptLines
    rw [hlines]
    rfl
  have hnone : (keptLines junk).filterMap (parseLine bp) = [] := by
    rw [hkept]
    by_cases hk : ((jsTrim junk).length > 0 && !strStarts (jsTrim junk) "total") = true
    · simp [List.filter, hk, parseLine_short bp (jsTrim junk) htok]
    · simp only [Bool.not_eq_true] at hk
      simp [List.filter, hk]
  rw [hnone, List.append_nil]

/-- A list starts with itself followed by anything. -/
theorem startsWithL_append (xs ys : List Char) : startsWithL (xs ++ ys) xs = true := by
  induction xs with
  | nil => cases ys <;> rfl
  | cons c cs ih => simp [startsWithL, ih]

/-- Reading back the double-quoted word recovers a backslash-free path
exactly, even when the path contains spaces and double quotes. -/
theorem readDq_escape (p : List Char) (h1 : p.contains '\\' = false) :
    readDqWord (escapeQuotesL p ++ ['"']) = some p := by
  induction p with
  | nil => rfl
  | cons c cs ih =>
    simp only [List.contains_cons, Bool.or_eq_false_iff, beq_eq_false_iff_ne] at h1
    have hcbs : ¬c = '\\' := fun hcc => h1.1 hcc.symm
    by_cases hq : c = '"'
    · subst hq
      simp [escapeQuotesL, readDqWord, ih h1.2]
    · have hstep : readDqWord (c :: (escapeQuotesL cs ++ ['"'])) =
          (readDqWord (escapeQuotesL cs ++ ['"'])).map (fun w => c :: w) := by
        rw [readDqWord.eq_def]
        simp [hq, hcbs]
      simp [escapeQuotesL, hq, hstep, ih h1.2]

/-- C1: for a collapsed Directory node the expand-button click triggers
exactly one child load, for that node's path, if and only if the node's
children field is undefined at the time of the click; when children are
already present (even as a loaded empty list) no load is triggered. -/
theorem c1_expand_triggers_load_iff_unloaded (e : FileEntry)
    (hd : e.isDirectory = true) (hcollapsed : jsTruthy e.expanded = false) :
    (clickLoadRequests e = [e.path] ↔ e.children = none) ∧
    (∀ cs, e.children = some cs → clickLoadRequests e = []) := by
  rcases hc : e.children with _ | cs
  · simp [clickLoadRequests, hcollapsed, hc]
  · simp [clickLoadRequests, hcollapsed, hc]

/-- Witness for C1 at concrete nodes: a collapsed never-loaded directory
produces exactly one load request for its path; a collapsed loaded-and-empty
directory produces none. -/
theorem c1_expand_triggers_load_iff_unloaded_witness :
    clickLoadRequests (FileEntry.mk "var" "/var" true none none (some false) none none) = ["/var"] ∧
    clickLoadRequests (FileEntry.mk "etc" "/etc" true none none (some false) (some []) none) = [] :=
  ⟨(c1_expand_triggers_load_iff_unloaded
      (FileEntry.mk "var" "/var" true none none (some false) none none) rfl rfl).1.mpr rfl,
   (c1_expand_triggers_load_iff_unloaded
      (FileEntry.mk "etc" "/etc" true none none (some false) (some []) none) rfl rfl).2 [] rfl⟩

/-- C4: parsing the two-line raw listing against parent path `/` yields
exactly the directory entry `var` at `/var` with undefined size and the file
entry `readme.txt` at `/readme.txt` with size 120. -/
theorem c4_parse_end_to_end :
    parseListOutput "drwxr-xr-x 2 root root 4096 Jan 1 00:00 var\n-rw-r--r-- 1 root root 120 Jan 1 00:00 readme.txt" "/" =
      [FileEntry.mk "var" "/var" true none (some "drwxr-xr-x") (some false) (some []) none,
       FileEntry.mk "readme.txt" "/readme.txt" false (some 120) (some "-rw-r--r--") (some false) none none] := rfl

/-- C5: the parser is a total function (the embedding cannot raise); empty
input parses to the empty sequence, any line with fewer than 9 whitespace
tokens maps to no entry, and appending such a malformed line to any raw input
leaves the parse of the remaining well-formed lines unchanged. -/
theorem c5_parser_total_and_drops_malformed (bp line out junk : String) :
    parseListOutput "" bp = [] ∧
    ((wsTokens line).length < 9 → parseLine bp line = none) ∧
    (junk.data.contains '\n' = false → (wsTokens (jsTrim junk)).length < 9 →
      parseListOutput (out ++ "\n" ++ junk) bp = parseListOutput out bp) :=
  ⟨rfl, parseLine_short bp line, parse_drop_malformed out junk bp⟩

/-- Witness for C5: empty input parses to nothing, a 3-token garbage line maps
to no entry, and one well-formed line plus that garbage line parses exactly as
the well-formed line alone. -/
theorem c5_parser_total_and_drops_malformed_witness :
    parseListOutput "" "/" = [] ∧
    parseLine "/" "a b c" = none ∧
    parseListOutput ("drwxr-xr-x 2 root root 4096 Jan 1 00:00 var" ++ "\n" ++ "x y z") "/" =
      parseListOutput "drwxr-xr-x 2 root root 4096 Jan 1 00:00 var" "/" :=
  ⟨(c5_parser_total_and_drops_malformed "/" "a b c"
      "drwxr-xr-x 2 root root 4096 Jan 1 00:00 var" "x y z").1,
   (c5_parser_total_and_drops_malformed "/" "a b c"
      "drwxr-xr-x 2 root root 4096 Jan 1 00:00 var" "x y z").2.1 (by decide),
   (c5_parser_total_and_drops_malformed "/" "a b c"
      "drwxr-xr-x 2 root root 4096 Jan 1 00:00 var" "x y z").2.2 rfl (by decide)⟩

/-- C6: for every raw input and parent path, no entry in the parser's output
is named `.` or `..`. -/
theorem c6_no_dot_entries (out bp : String) (e : FileEntry)
    (h : e ∈ parseListOutput out bp) : e.name ≠ "." ∧ e.name ≠ ".." := by
  rw [parse_eq_pipeline] at h
  rcases List.mem_filterMap.mp h with ⟨line, -, hline⟩
  exact parseLine_name_ok bp line e hline

/-- Witness for C6 at a concrete parse. -/
theorem c6_no_dot_entries_witness : ("var" : String) ≠ "." ∧ ("var" : String) ≠ ".." :=
  c6_no_dot_entries "drwxr-xr-x 2 root root 4096 Jan 1 00:00 var" "/"
    (FileEntry.mk "var" "/var" true none (some "drwxr-xr-x") (some false) (some []) none)
    (by
      rw [show parseListOutput "drwxr-xr-x 2 root root 4096 Jan 1 00:00 var" "/" =
        [FileEntry.mk "var" "/var" true none (some "drwxr-xr-x") (some false) (some []) none] from rfl]
      exact List.mem_singleton_self _)

/-- C9: every Directory entry produced by the parser is created with children
equal to the empty list (never undefined) and every File entry is created
with children undefined. -/
theorem c9_parsed_directories_have_empty_children (out bp : String) (e : FileEntry)
    (h : e ∈ parseListOutput out bp) :
    (e.isDirectory = true → e.children = some []) ∧
    (e.isDirectory = false → e.children = none) := by
  rw [parse_eq_pipeline] at h
  rcases List.mem_filterMap.mp h with ⟨line, -, hline⟩
  exact ⟨(parseLine_fields_ok bp line e hline).1, (parseLine_fields_ok bp line e hline).2.1⟩

/-- Witness for C9 at the concrete two-entry parse: the directory entry has
children `some []` and the file entry has children `none`. -/
theorem c9_parsed_directories_have_empty_children_witness :
    FileEntry.children (FileEntry.mk "var" "/var" true none (some "drwxr-xr-x") (some false) (some []) none) = some [] ∧
    FileEntry.children (FileEntry.mk "readme.txt" "/readme.txt" false (some 120) (some "-rw-r--r--") (some false) none none) = none :=
  ⟨(c9_parsed_directories_have_empty_children
      "drwxr-xr-x 2 root root 4096 Jan 1 00:00 var\n-rw-r--r-- 1 root root 120 Jan 1 00:00 readme.txt" "/"
      (FileEntry.mk "var" "/var" true none (some "drwxr-xr-x") (some false) (some []) none)
      (by
        rw [show parseListOutput "drwxr-xr-x 2 root root 4096 Jan 1 00:00 var\n-rw-r--r-- 1 root root 120 Jan 1 00:00 readme.txt" "/" =
          [FileEntry.mk "var" "/var" true none (some "drwxr-xr-x") (some false) (some []) none,
           FileEntry.mk "readme.txt" "/readme.txt" false (some 120) (some "-rw-r--r--") (some false) none none] from rfl]
        exact List.mem_cons_self _ _)).1 rfl,
   (c9_parsed_directories_have_empty_children
      "drwxr-xr-x 2 root root 4096 Jan 1 00:00 var\n-rw-r--r-- 1 root root 120 Jan 1 00:00 readme.txt" "/"
      (FileEntry.mk "readme.txt" "/readme.txt" false (some 120) (some "-rw-r--r--") (some false) none none)
      (by
        rw [show parseListOutput "drwxr-xr-x 2 root root 4096 Jan 1 00:00 var\n-rw-r--r-- 1 root root 120 Jan 1 00:00 readme.txt" "/" =
          [FileEntry.mk "var" "/var" true none (some "drwxr-xr-x") (some false) (some []) none,
           FileEntry.mk "readme.txt" "/readme.txt" false (some 120) (some "-rw-r--r--") (some false) none none] from rfl]
        exact List.mem_cons_of_mem _ (List.mem_singleton_self _))).2 rfl⟩

/-- C7: every tree mutation operation (toggle-expand, begin-load,
apply-children, fail-load) returns its input snapshot unchanged when the
target path matches no node, and leaves every subtree that does not contain
the target path unchanged when it does match. -/
theorem c7_mutators_noop_on_unknown_path (p : String) (s cs : List FileEntry) :
    (containsList p s = false →
      toggleExpandUpdate s p = s ∧ beginLoadUpdate s p = s ∧
      applyChildrenUpdate s p cs = s ∧ failLoadUpdate s p = s) ∧
    (∀ t, containsTree p t = false →
      updateTree toggleExpandFn p t = t ∧ updateTree setLoadingTrueFn p t = t ∧
      updateTree (applyChildrenFn cs) p t = t ∧ updateTree setLoadingFalseFn p t = t) := by
  constructor
  · intro h
    exact ⟨(update_noop toggleExpandFn p).2 s h, (update_noop setLoadingTrueFn p).2 s h,
      (update_noop (applyChildrenFn cs) p).2 s h, (update_noop setLoadingFalseFn p).2 s h⟩
  · intro t h
    exact ⟨(update_noop toggleExpandFn p).1 t h, (update_noop setLoadingTrueFn p).1 t h,
      (update_noop (applyChildrenFn cs) p).1 t h, (update_noop setLoadingFalseFn p).1 t h⟩

/-- Witness for C7 at a concrete two-level snapshot and an absent path. -/
theorem c7_mutators_noop_on_unknown_path_witness :
    toggleExpandUpdate [FileEntry.mk "var" "/var" true none none (some false)
        (some [FileEntry.mk "log" "/var/log" true none none (some false) none none]) none] "/missing" =
      [FileEntry.mk "var" "/var" true none none (some false)
        (some [FileEntry.mk "log" "/var/log" true none none (some false) none none]) none] ∧
    beginLoadUpdate [FileEntry.mk "var" "/var" true none none (some false)
        (some [FileEntry.mk "log" "/var/log" true none none (some false) none none]) none] "/missing" =
      [FileEntry.mk "var" "/var" true none none (some false)
        (some [FileEntry.mk "log" "/var/log" true none none (some false) none none]) none] ∧
    applyChildrenUpdate [FileEntry.mk "var" "/var" true none none (some false)
        (some [FileEntry.mk "log" "/var/log" true none none (some false) none none]) none] "/missing" [] =
      [FileEntry.mk "var" "/var" true none none (some false)
        (some [FileEntry.mk "log" "/var/log" true none none (some false) none none]) none] ∧
    failLoadUpdate [FileEntry.mk "var" "/var" true none none (some false)
        (some [FileEntry.mk "log" "/var/log" true none none (some false) none none]) none] "/missing" =
      [FileEntry.mk "var" "/var" true none none (some false)
        (some [FileEntry.mk "log" "/var/log" true none none (some false) none none]) none] :=
  (c7_mutators_noop_on_unknown_path "/missing"
    [FileEntry.mk "var" "/var" true none none (some false)
      (some [FileEntry.mk "log" "/var/log" true none none (some false) none none]) none] []).1 rfl

/-- C10 is refuted as stated: toggle-expand is not an involution on every
snapshot.  On a Directory node whose optional expanded field is undefined
(possible because the source declares `expanded?: boolean`), toggling twice
first writes `expanded: true` (since `!undefined` is `true`) and then
`expanded: false`, so the final snapshot carries a defined `false` where the
original carried `undefined` and is not structurally equal to it. -/
theorem c10_toggle_not_involutive_cex :
    toggleExpandUpdate (toggleExpandUpdate
        [FileEntry.mk "a" "/a" true none none none (some []) none] "/a") "/a" ≠
      [FileEntry.mk "a" "/a" true none none none (some []) none] := by
  intro h
  have h2 : toggleExpandUpdate (toggleExpandUpdate
      [FileEntry.mk "a" "/a" true none none none (some []) none] "/a") "/a" =
      [FileEntry.mk "a" "/a" true none none (some false) (some []) none] := rfl
  rw [h2] at h
  injection h with h3 h4
  injection h3 with e1 e2 e3 e4 e5 e6 e7 e8
  exact Option.noConfusion e6

/-- C10 (amended): on snapshots all of whose reachable nodes have a defined
expanded field — which includes every snapshot the program constructs, since
the parser initialises expanded to `false` and the updaters only write
defined values — applying toggle-expand twice with the same path returns the
original snapshot (the counterexample forces only this definedness
restriction); and, exactly as originally claimed, a single application
changes no field other than the expanded flag of nodes whose path equals the
target: a matched node changes only its expanded flag and keeps its children
untouched, every non-matched node — ancestors on the spine included — keeps
all of its own fields, expanded in particular, with only its children list
rebuilt recursively, and a subtree in which the target path is unreachable is
returned unchanged. -/
theorem c10_toggle_involutive_amended (s : List FileEntry) (p : String) :
    (wfExpList s = true → toggleExpandUpdate (toggleExpandUpdate s p) p = s) ∧
    (∀ n pa d sz pm ex ch ld, pa = p →
      updateTree toggleExpandFn p (.mk n pa d sz pm ex ch ld) =
        .mk n pa d sz pm (some (!jsTruthy ex)) ch ld) ∧
    (∀ n pa d sz pm ex ch ld, pa ≠ p →
      updateTree toggleExpandFn p (.mk n pa d sz pm ex ch ld) =
        .mk n pa d sz pm ex
          (match ch with
           | some cs => some (updateList toggleExpandFn p cs)
           | none => none) ld) ∧
    (∀ t, containsTree p t = false → updateTree toggleExpandFn p t = t) := by
  refine ⟨fun h => (toggle_involutive p).2 s h, ?_, ?_,
    fun t h => (update_noop toggleExpandFn p).1 t h⟩
  · intro n pa d sz pm ex ch ld hp
    rw [updateTree_mk, if_pos hp]
    rfl
  · intro n pa d sz pm ex ch ld hp
    rw [updateTree_mk, if_neg hp]
    cases ch <;> rfl

/-- Witness for the amended C10: double toggle restores a concrete snapshot
with defined expanded fields; a matched node changes only its expanded flag;
a spine node above the target keeps all of its own fields including expanded
while only the nested target flips; and an unrelated subtree is unchanged. -/
theorem c10_toggle_involutive_amended_witness :
    toggleExpandUpdate (toggleExpandUpdate
        [FileEntry.mk "a" "/a" true none none (some false) (some []) none] "/a") "/a" =
      [FileEntry.mk "a" "/a" true none none (some false) (some []) none] ∧
    updateTree toggleExpandFn "/a"
        (FileEntry.mk "a" "/a" true none none (some false) (some []) none) =
      FileEntry.mk "a" "/a" true none none (some true) (some []) none ∧
    updateTree toggleExpandFn "/a"
        (FileEntry.mk "var" "/var" true none none (some false)
          (some [FileEntry.mk "a" "/a" true none none (some false) none none]) none) =
      FileEntry.mk "var" "/var" true none none (some false)
        (some [FileEntry.mk "a" "/a" true none none (some true) none none]) none ∧
    updateTree toggleExpandFn "/a"
        (FileEntry.mk "etc" "/etc" true none none (some false) none none) =
      FileEntry.mk "etc" "/etc" true none none (some false) none none :=
  ⟨(c10_toggle_involutive_amended
      [FileEntry.mk "a" "/a" true none none (some false) (some []) none] "/a").1 rfl,
   (c10_toggle_involutive_amended [] "/a").2.1
     "a" "/a" true none none (some false) (some []) none rfl,
   (c10_toggle_involutive_amended [] "/a").2.2.1
     "var" "/var" true none none (some false)
     (some [FileEntry.mk "a" "/a" true none none (some false) none none]) none
     (by decide),
   (c10_toggle_involutive_amended [] "/a").2.2.2
     (FileEntry.mk "etc" "/etc" true none none (some false) none none) rfl⟩

/-- C3 is refuted as stated: the error of a failed child-listing load is not
recorded on the failing node.  The post-failure tree is identical for two
different error messages (so no node can be carrying the message — `FileEntry`
has no error field), while the dialog-level error state, shared by the whole
explorer, receives the message; the tree update only clears the target node's
loading flag. -/
theorem c3_error_not_recorded_on_node_cex :
    (loadChildrenErrorStep (ExplorerState.mk
        [FileEntry.mk "var" "/var" true none none (some true) (some []) (some true)]
        none ["/var"]) "/var" "errA").rootFiles =
      (loadChildrenErrorStep (ExplorerState.mk
        [FileEntry.mk "var" "/var" true none none (some true) (some []) (some true)]
        none ["/var"]) "/var" "errB").rootFiles ∧
    (loadChildrenErrorStep (ExplorerState.mk
        [FileEntry.mk "var" "/var" true none none (some true) (some []) (some true)]
        none ["/var"]) "/var" "errA").dialogError = some "errA" ∧
    (loadChildrenErrorStep (ExplorerState.mk
        [FileEntry.mk "var" "/var" true none none (some true) (some []) (some true)]
        none ["/var"]) "/var" "errA").rootFiles =
      [FileEntry.mk "var" "/var" true none none (some true) (some []) (some false)] :=
  ⟨rfl, rfl, rfl⟩

/-- C3 (amended): when a child-listing load fails, the error message is
recorded in the dialog-level error state shared by the explorer (nodes carry
no per-node error field); the accompanying tree update merely sets the target
node's loading flag to false, leaving every subtree that does not contain the
target path unchanged, and changing nothing but the loading field of a
matched node. -/
theorem c3_fail_load_dialog_error_amended (st : ExplorerState) (p : String) (msg : String) :
    (loadChildrenErrorStep st p msg).dialogError = some msg ∧
    (loadChildrenErrorStep st p msg).rootFiles = failLoadUpdate st.rootFiles p ∧
    (∀ t, containsTree p t = false → updateTree setLoadingFalseFn p t = t) ∧
    (∀ n pa d sz pm ex ch ld, pa = p →
      updateTree setLoadingFalseFn p (.mk n pa d sz pm ex ch ld) =
        .mk n pa d sz pm ex ch (some false)) := by
  refine ⟨rfl, rfl, fun t h => (update_noop setLoadingFalseFn p).1 t h, ?_⟩
  intro n pa d sz pm ex ch ld hp
  rw [updateTree_mk, if_pos hp]
  rfl

/-- Witness for the amended C3: a concrete failure stores its message in the
dialog error, an unrelated sibling subtree is unchanged, and a matched node
changes only its loading flag. -/
theorem c3_fail_load_dialog_error_amended_witness :
    (loadChildrenErrorStep (ExplorerState.mk
        [FileEntry.mk "var" "/var" true none none (some true) (some []) (some true)]
        none ["/var"]) "/var" "boom").dialogError = some "boom" ∧
    updateTree setLoadingFalseFn "/var"
        (FileEntry.mk "etc" "/etc" true none none (some false) none none) =
      FileEntry.mk "etc" "/etc" true none none (some false) none none ∧
    updateTree setLoadingFalseFn "/var"
        (FileEntry.mk "var" "/var" true none none (some true) (some []) (some true)) =
      FileEntry.mk "var" "/var" true none none (some true) (some []) (some false) :=
  ⟨(c3_fail_load_dialog_error_amended (ExplorerState.mk
      [FileEntry.mk "var" "/var" true none none (some true) (some []) (some true)]
      none ["/var"]) "/var" "boom").1,
   (c3_fail_load_dialog_error_amended (ExplorerState.mk [] none []) "/var" "boom").2.2.1
     (FileEntry.mk "etc" "/etc" true none none (some false) none none) rfl,
   (c3_fail_load_dialog_error_amended (ExplorerState.mk [] none []) "/var" "boom").2.2.2
     "var" "/var" true none none (some true) (some []) (some true) rfl⟩

/-- C2 is refuted as stated: the expand-and-load operation (`loadChildren`)
performs no check of the loading flag before acting; triggering it a second
time for the same path while the first load is still in flight issues a
second remote command invocation for that path — the second trigger is not a
no-op. -/
theorem c2_no_inflight_dedup_cex :
    (loadChildrenBeginStep (loadChildrenBeginStep (ExplorerState.mk
        [FileEntry.mk "var" "/var" true none none (some false) none none] none [])
      "/var") "/var").invocations = ["/var", "/var"] ∧
    (["/var", "/var"] : List String).length ≠ 1 :=
  ⟨rfl, by decide⟩

/-- C2 (amended): the de-duplication the source actually provides sits in the
expand-button click handler, not in `loadChildren`: from any state whose
rendered node at the path is a collapsed directory with undefined children,
clicking the expand button twice issues exactly one remote invocation for the
path — the first click begins the load and expands the node, so the second
click fails the `!entry.expanded && !entry.children` guard and merely
collapses it.  `loadChildren` itself performs no in-flight check. -/
theorem c2_double_click_single_invocation_amended (st : ExplorerState) (p : String)
    (e : FileEntry) (hf : findList p st.rootFiles = some e)
    (hd : e.isDirectory = true) (hex : jsTruthy e.expanded = false)
    (hch : e.children = none) :
    (clickDirectoryButton (clickDirectoryButton st p) p).invocations =
      st.invocations ++ [p] := by
  rcases e with ⟨n, pa, d, sz, pm, ex, ch, ld⟩
  simp only [FileEntry.isDirectory] at hd
  simp only [FileEntry.children] at hch
  simp only [FileEntry.expanded] at hex
  subst hd
  subst hch
  have hguard : (!jsTruthy (FileEntry.mk n pa true sz pm ex none ld).expanded &&
      (FileEntry.mk n pa true sz pm ex none ld).children.isNone) = true := by
    simp [FileEntry.expanded, FileEntry.children, hex]
  have hc1 : clickDirectoryButton st p = toggleExpandStep (loadChildrenBeginStep st p) p := by
    unfold clickDirectoryButton
    rw [hf]
    simp [FileEntry.isDirectory, hguard]
  have hroot1 : (toggleExpandStep (loadChildrenBeginStep st p) p).rootFiles =
      updateList toggleExpandFn p (updateList setLoadingTrueFn p st.rootFiles) := rfl
  have hf2 : findList p (toggleExpandStep (loadChildrenBeginStep st p) p).rootFiles =
      some (toggleExpandFn (setLoadingTrueFn (FileEntry.mk n pa true sz pm ex none ld))) := by
    rw [hroot1, (find_update toggleExpandFn p toggleExpandFn_path).2,
        (find_update setLoadingTrueFn p setLoadingTrueFn_path).2, hf]
    rfl
  have he2 : toggleExpandFn (setLoadingTrueFn (FileEntry.mk n pa true sz pm ex none ld)) =
      FileEntry.mk n pa true sz pm (some true) none (some true) := by
    simp [toggleExpandFn, setLoadingTrueFn, hex]
  rw [hc1]
  have hc2 : clickDirectoryButton (toggleExpandStep (loadChildrenBeginStep st p) p) p =
      toggleExpandStep (toggleExpandStep (loadChildrenBeginStep st p) p) p := by
    unfold clickDirectoryButton
    rw [hf2, he2]
    simp [FileEntry.isDirectory, FileEntry.expanded, FileEntry.children, jsTruthy]
  rw [hc2]
  rfl

/-- Witness for the amended C2 at a concrete state: two clicks on a collapsed
never-loaded directory at `/var` issue exactly one invocation. -/
theorem c2_double_click_single_invocation_amended_witness :
    (clickDirectoryButton (clickDirectoryButton (ExplorerState.mk
        [FileEntry.mk "var" "/var" true none (some "drwxr-xr-x") (some false) none none]
        none []) "/var") "/var").invocations = ["/var"] :=
  c2_double_click_single_invocation_amended (ExplorerState.mk
      [FileEntry.mk "var" "/var" true none (some "drwxr-xr-x") (some false) none none]
      none []) "/var"
    (FileEntry.mk "var" "/var" true none (some "drwxr-xr-x") (some false) none none)
    rfl rfl rfl rfl

/-- Auxiliary: dropping the length of the first list from an append yields the
second. -/
theorem drop_length_append (a b : List Char) : (a ++ b).drop a.length = b := by
  induction a with
  | nil => rfl
  | cons c cs ih => simp [ih]

/-- C8: the scoped listing command interpolates the remote path only after
escaping every embedded double quote, and reading the double-quoted word back
with the POSIX double-quote rules recovers the path exactly, including paths
with spaces and double quotes.  The guarantee is stated for paths free of
backslashes, dollar signs and backquotes, since inside double quotes a real
shell still treats those specially and the source only escapes quotes. -/
theorem c8_list_command_escapes_quotes (p : String)
    (h1 : p.data.contains '\\' = false)
    (h2 : p.data.contains '$' = false)
    (h3 : p.data.contains (Char.ofNat 96) = false) :
    buildListCommand p = "ls -la -- \"" ++ escapeQuotes p ++ "\"" ∧
    parsedListPath (buildListCommand p) = some p := by
  refine ⟨rfl, ?_⟩
  have hcmd : (buildListCommand p).data =
      ("ls -la -- \"" : String).data ++ (escapeQuotesL p.data ++ ['"']) := by
    unfold buildListCommand
    rw [String.data_append, String.data_append]
    simp [escapeQuotes]
  unfold parsedListPath
  have hstart : strStarts (buildListCommand p) "ls -la -- \"" = true := by
    unfold strStarts
    rw [hcmd]
    exact startsWithL_append _ _
  rw [if_pos hstart, hcmd, drop_length_append, readDq_escape p.data h1]
  rfl

/-- Witness for C8 at a path containing both spaces and double quotes. -/
theorem c8_list_command_escapes_quotes_witness :
    parsedListPath (buildListCommand "/my \"dir\" name") = some "/my \"dir\" name" :=
  (c8_list_command_escapes_quotes "/my \"dir\" name" rfl rfl rfl).2

end FileExplorer
